import Mathlib

/-!
# Verification of the arbor scaffold orchestration engine

A shallow embedding, in Lean 4, of the core of the `arbor` repository:
the database name generator (`internal/scaffold/words`), the condition
evaluator (`internal/scaffold/types`), the `db.create` provisioning step
(`internal/scaffold/steps`), the template substitution of `BinaryStep`,
and the priority-based step executor.

Pure functions of the Go source are translated into Lean functions;
side effects (filesystem, database server, process environment, random
word choice) are passed in explicitly as oracles, so every definition
is executable on concrete inputs.
-/

namespace Arbor

/-! ## Name generator (`internal/scaffold/words`)

The implementation of this package is not present in the provided
sources; only its test suite is (`TestSanitizeSiteName`,
`TestGenerateDatabaseName`, `TestMaxLengthEnforcement`).  The
definitions below are therefore modelled from the spec (§3 "Database
Naming", §4.6 "Name Generator") and validated against that test table.
-/

namespace Words

/-- Lower-case a character and replace anything that is not a
lower-case letter or digit by `'_'` (spec §3: "sanitization
lower-cases, replaces any run of non-alphanumeric characters with a
single underscore"). -/
def sanChar (c : Char) : Char :=
  let l := c.toLower
  if l.isLower || l.isDigit then l else '_'

/-- Collapse every run of consecutive underscores into a single one.
The boolean records whether the previously emitted character was an
underscore. -/
def squeezeUnderscores : Bool → List Char → List Char
  | _, [] => []
  | prevU, c :: rest =>
    if c = '_' then
      if prevU then squeezeUnderscores true rest
      else '_' :: squeezeUnderscores true rest
    else c :: squeezeUnderscores false rest

/-- Remove leading and trailing underscores. -/
def trimUnderscores (cs : List Char) : List Char :=
  (((cs.dropWhile (· = '_')).reverse.dropWhile (· = '_'))).reverse

/-- Modelled from the spec: `words.SanitizeSiteName` (implementation
missing from the sources; behaviour fixed by spec §3 and the
`TestSanitizeSiteName` table): lower-case, replace each run of
non-alphanumeric characters with a single `'_'`, trim leading and
trailing underscores. -/
def SanitizeSiteName (s : String) : String :=
  String.mk (trimUnderscores (squeezeUnderscores false (s.data.map sanChar)))

/-- Core of `GenerateDatabaseName`, on character lists: append
`'_' :: suffix` to the sanitized prefix and, if the configured maximum
is exceeded, truncate the prefix portion only, preserving the suffix. -/
def gdnData (san : List Char) (maxLen : Nat) (suf : List Char) : List Char :=
  if maxLen < (san ++ '_' :: suf).length then
    san.take (maxLen - (suf.length + 1)) ++ '_' :: suf
  else san ++ '_' :: suf

/-- Modelled from the spec: `words.GenerateDatabaseName(pfx, maxLength)`
(implementation missing from the sources; spec §4.6).  The randomly
generated `adjective_noun` suffix is passed in explicitly as `suffix`.
A `maxLength` of `0` means the default limit of 63. -/
def GenerateDatabaseName (pfx : String) (maxLength : Nat) (suffix : String) : String :=
  String.mk (gdnData (SanitizeSiteName pfx).data
    (if maxLength = 0 then 63 else maxLength) suffix.data)

-- sanity checks against the TestSanitizeSiteName table
example : SanitizeSiteName "MyApp" = "myapp" := by decide
example : SanitizeSiteName "my-app" = "my_app" := by decide
example : SanitizeSiteName "my app" = "my_app" := by decide
example : SanitizeSiteName "my@app!" = "my_app" := by decide
example : SanitizeSiteName "my__app" = "my_app" := by decide
example : SanitizeSiteName "my---app" = "my_app" := by decide
example : SanitizeSiteName "__myapp" = "myapp" := by decide
example : SanitizeSiteName "myapp__" = "myapp" := by decide
example : SanitizeSiteName "__myapp__" = "myapp" := by decide
example : SanitizeSiteName "my_app" = "my_app" := by decide
example : SanitizeSiteName "" = "" := by decide
example : SanitizeSiteName "My-Test_App 123!" = "my_test_app_123" := by decide
example : GenerateDatabaseName "myapp" 0 "swift_runner" = "myapp_swift_runner" := by decide
example : GenerateDatabaseName "verylongsitenamethatneedstobetruncated" 30 "swift_runner"
    = "verylongsitenamet_swift_runner" := by decide

theorem length_gdnData (san : List Char) (maxLen : Nat) (suf : List Char)
    (h : suf.length + 1 ≤ maxLen) : (gdnData san maxLen suf).length ≤ maxLen := by
  unfold gdnData
  by_cases hc : maxLen < (san ++ '_' :: suf).length
  · rw [if_pos hc]
    simp only [List.length_append, List.length_cons, List.length_take] at hc ⊢
    omega
  · rw [if_neg hc]
    omega

theorem gdnData_shape (san : List Char) (maxLen : Nat) (suf : List Char) :
    ∃ k, gdnData san maxLen suf = san.take k ++ '_' :: suf ∧
      (san.length + 1 + suf.length ≤ maxLen → k = san.length) := by
  unfold gdnData
  by_cases hc : maxLen < (san ++ '_' :: suf).length
  · rw [if_pos hc]
    refine ⟨maxLen - (suf.length + 1), rfl, fun hle => ?_⟩
    simp only [List.length_append, List.length_cons] at hc
    omega
  · rw [if_neg hc]
    exact ⟨san.length, by rw [List.take_length], fun _ => rfl⟩

end Words

/-- C5: for every prefix and every `maxLength` (default 63 when 0 is
passed) that leaves room for the generated suffix, `GenerateDatabaseName`
returns a name of length at most the effective maximum, and the result
is always the (possibly truncated) sanitized prefix followed by the
full `_<adjective>_<noun>` suffix: truncation removes characters only
from the sanitized prefix portion, and when no truncation is needed the
whole sanitized prefix is kept. -/
theorem generateDatabaseName_maxLength (pfx suffix : String) (maxLength : Nat)
    (h : suffix.length + 1 ≤ if maxLength = 0 then 63 else maxLength) :
    (Words.GenerateDatabaseName pfx maxLength suffix).length
        ≤ (if maxLength = 0 then 63 else maxLength) ∧
    ∃ k, Words.GenerateDatabaseName pfx maxLength suffix
        = String.mk ((Words.SanitizeSiteName pfx).data.take k ++ '_' :: suffix.data) ∧
      ((Words.SanitizeSiteName pfx).length + 1 + suffix.length
          ≤ (if maxLength = 0 then 63 else maxLength) →
        k = (Words.SanitizeSiteName pfx).length) := by
  constructor
  · exact Words.length_gdnData _ _ _ h
  · obtain ⟨k, hk, hfull⟩ := Words.gdnData_shape (Words.SanitizeSiteName pfx).data
      (if maxLength = 0 then 63 else maxLength) suffix.data
    exact ⟨k, congrArg String.mk hk, hfull⟩

/-- Witness for C5 at a concrete input. -/
theorem generateDatabaseName_maxLength_witness :
    ("swift_runner".length + 1 ≤ if (0 : Nat) = 0 then 63 else 0) ∧
    ((Words.GenerateDatabaseName "My-App!" 0 "swift_runner").length
        ≤ (if (0 : Nat) = 0 then 63 else 0) ∧
    ∃ k, Words.GenerateDatabaseName "My-App!" 0 "swift_runner"
        = String.mk ((Words.SanitizeSiteName "My-App!").data.take k ++ '_' :: "swift_runner".data) ∧
      ((Words.SanitizeSiteName "My-App!").length + 1 + "swift_runner".length
          ≤ (if (0 : Nat) = 0 then 63 else 0) →
        k = (Words.SanitizeSiteName "My-App!").length)) :=
  ⟨by decide, generateDatabaseName_maxLength "My-App!" "swift_runner" 0 (by decide)⟩

/-! ## Condition evaluator (`internal/scaffold/types/types.go`)

A YAML-decoded condition value (`interface{}` in Go) is a string, a
list, or a string-keyed map.  Go's `map[string]interface{}` is embedded
as an association list of entries.  The ambient filesystem / process
state consulted by the leaf predicates is passed in as the explicit
oracle record `SysCtx`. -/

namespace Cond

/-- A decoded condition value (`interface{}` restricted to the shapes
the evaluator inspects). -/
inductive CVal where
  | str (s : String)
  | list (items : List CVal)
  | map (entries : List (String × CVal))

/-- Result of evaluating a condition.  In `types.go` every predicate
returns a `nil` error, so the Go `(bool, error)` pair degenerates to
`ok value`; `panicked` embeds the run-time panic of a failed unchecked
type assertion. -/
inductive EvalResult where
  | ok (value : Bool)
  | panicked
deriving DecidableEq

/-- The read-only ambient state consulted by leaf predicates. -/
structure SysCtx where
  worktreePath : String
  /-- whether `os.Stat` succeeds on a path -/
  statOk : String → Bool
  /-- `os.ReadFile`: contents of a file, if readable -/
  readFile : String → Option String
  /-- whether `exec.LookPath` succeeds for a command name -/
  lookPathOk : String → Bool
  /-- `runtime.GOOS` -/
  goos : String
  /-- `os.LookupEnv` -/
  procEnv : String → Option String
  /-- `utils.ReadEnvFile(worktreePath, file)[key]`, `none` when the key
  is absent (or the file missing / unreadable) -/
  envFile : String → String → Option String

/-- `filepath.Join` on the two components we ever join. -/
def joinPath (base p : String) : String := base ++ "/" ++ p

/-- Go map lookup `es[key]` on the association-list embedding. -/
def lookupEntry (es : List (String × CVal)) (key : String) : Option CVal :=
  (es.find? (fun e => e.1 == key)).map (·.2)

/-- `strings.Contains` on the character-list representation. -/
def strContains (haystack needle : String) : Bool :=
  decide (needle.data <:+: haystack.data)

/-- The recurring Go decode pattern
`switch v := value.(type) \x7b case string: v; case map: v[field].(string) \x7d`,
yielding `""` in every failure case. -/
def strOrField (field : String) : CVal → String
  | .str s => s
  | .map es =>
    match lookupEntry es field with
    | some (.str s) => s
    | _ => ""
  | _ => ""

/-- One field of a `mapstructure.Decode` into a string-typed struct
field: missing keys decode to the zero value `""`, a non-string value
is a decode error (`none`). -/
def decodeStrField (es : List (String × CVal)) (field : String) : Option String :=
  match lookupEntry es field with
  | none => some ""
  | some (.str s) => some s
  | some _ => none

/-- `fileExists` of `types.go`. -/
def fileExists (ctx : SysCtx) (v : CVal) : EvalResult :=
  let path := strOrField "file" v
  if path = "" then .ok false
  else .ok (ctx.statOk (joinPath ctx.worktreePath path))

/-- `fileContains` of `types.go`: a bare string argument, a decode
error, or a missing `file`/`pattern` field all yield `false`. -/
def fileContains (ctx : SysCtx) (v : CVal) : EvalResult :=
  match v with
  | .map es =>
    match decodeStrField es "file", decodeStrField es "pattern" with
    | some f, some p =>
      if f = "" ∨ p = "" then .ok false
      else
        match ctx.readFile (joinPath ctx.worktreePath f) with
        | none => .ok false
        | some data => .ok (strContains data p)
    | _, _ => .ok false
  | _ => .ok false

/-- `fileHasScript` of `types.go`: look for `"<name>"` in
`package.json`. -/
def fileHasScript (ctx : SysCtx) (v : CVal) : EvalResult :=
  let scriptName := strOrField "name" v
  if scriptName = "" then .ok false
  else
    match ctx.readFile (joinPath ctx.worktreePath "package.json") with
    | none => .ok false
    | some data => .ok (strContains data ("\"" ++ scriptName ++ "\""))

/-- `commandExists` of `types.go`. -/
def commandExists (ctx : SysCtx) (v : CVal) : EvalResult :=
  let cmdName := strOrField "command" v
  if cmdName = "" then .ok false
  else .ok (ctx.lookPathOk cmdName)

/-- `osMatches` of `types.go`: single value or list, compared
case-insensitively (`strings.EqualFold`) against `runtime.GOOS`. -/
def osMatches (ctx : SysCtx) (v : CVal) : EvalResult :=
  let osList : List String :=
    match v with
    | .str s => [s]
    | .list items => items.filterMap (fun c => match c with | .str s => some s | _ => none)
    | _ => []
  .ok (osList.any (fun o => o.toLower == ctx.goos.toLower))

/-- `envExists` of `types.go`. -/
def envExists (ctx : SysCtx) (v : CVal) : EvalResult :=
  let envName := strOrField "env" v
  if envName = "" then .ok false
  else .ok (ctx.procEnv envName).isSome

/-- `envNotExists` of `types.go`: plain negation of `envExists`. -/
def envNotExists (ctx : SysCtx) (v : CVal) : EvalResult :=
  match envExists ctx v with
  | .ok b => .ok !b
  | .panicked => .panicked

/-- Argument decoding of `envFileContains`: a map decodes its `file`
and `key` fields (`none` = `mapstructure` decode error), a bare string
is the key against the default `.env` file, anything else leaves the
zero-valued config. -/
def decodeEnvFileArg : CVal → Option (String × String)
  | .map es =>
    match decodeStrField es "file", decodeStrField es "key" with
    | some f, some k => some (f, k)
    | _, _ => none
  | .str s => some (".env", s)
  | _ => some ("", "")

/-- `envFileContains` of `types.go`: true iff the key exists in the
environment file with a non-empty value. -/
def envFileContains (ctx : SysCtx) (v : CVal) : EvalResult :=
  match decodeEnvFileArg v with
  | none => .ok false
  | some (f, k) =>
    if f = "" ∨ k = "" then .ok false
    else
      match ctx.envFile f k with
      | some val => .ok (decide (val ≠ ""))
      | none => .ok false

/-- `envFileMissing` of `types.go`: defined as the negation of
`envFileContains`, not a separate code path. -/
def envFileMissing (ctx : SysCtx) (v : CVal) : EvalResult :=
  match envFileContains ctx v with
  | .ok b => .ok !b
  | .panicked => .panicked

mutual

/-- `evaluateCondition` of `types.go`: dispatch on the dynamic type of
the condition value; anything that is neither a map nor a list is
vacuously true. -/
def evaluateCondition (ctx : SysCtx) : CVal → EvalResult
  | .map es => evaluateMapCondition ctx es
  | .list items => evaluateArrayCondition ctx items
  | _ => .ok true

/-- `evaluateMapCondition` of `types.go`: conjunction over the entries,
short-circuiting on the first false. -/
def evaluateMapCondition (ctx : SysCtx) : List (String × CVal) → EvalResult
  | [] => .ok true
  | (k, v) :: rest =>
    match evaluateSingle ctx k v with
    | .ok true => evaluateMapCondition ctx rest
    | .ok false => .ok false
    | .panicked => .panicked

/-- `evaluateArrayCondition` of `types.go`: conjunction over the
elements.  Each element is forced to a map by the unchecked type
assertion `item.(map[string]interface\x7b\x7d)`; a non-map element
panics. -/
def evaluateArrayCondition (ctx : SysCtx) : List CVal → EvalResult
  | [] => .ok true
  | .map es :: rest =>
    match evaluateCondition ctx (.map es) with
    | .ok true => evaluateArrayCondition ctx rest
    | .ok false => .ok false
    | .panicked => .panicked
  | _ :: _ => .panicked

/-- `evaluateSingle` of `types.go`: dispatch on the predicate name;
unknown predicate names are vacuously true. -/
def evaluateSingle (ctx : SysCtx) (k : String) (v : CVal) : EvalResult :=
  if k = "file_exists" then fileExists ctx v
  else if k = "file_contains" then fileContains ctx v
  else if k = "file_has_script" then fileHasScript ctx v
  else if k = "command_exists" then commandExists ctx v
  else if k = "os" then osMatches ctx v
  else if k = "env_exists" then envExists ctx v
  else if k = "env_not_exists" then envNotExists ctx v
  else if k = "env_file_contains" then envFileContains ctx v
  else if k = "env_file_missing" then envFileMissing ctx v
  else if k = "not" then
    match evaluateCondition ctx v with
    | .ok b => .ok !b
    | .panicked => .panicked
  else .ok true

end

/-- `EvaluateCondition` of `types.go`: the public entry point; an empty
condition is true, a `not` key negates its nested condition. -/
def EvaluateCondition (ctx : SysCtx) (conditions : List (String × CVal)) : EvalResult :=
  if conditions.isEmpty then .ok true
  else
    match lookupEntry conditions "not" with
    | some v =>
      match evaluateCondition ctx v with
      | .ok b => .ok !b
      | .panicked => .panicked
    | none => evaluateMapCondition ctx conditions

/-- A concrete ambient state used by witnesses: empty filesystem, no
commands, a single `.env` file in which the key `EMPTY` is present with
the empty value. -/
def sysCtxEx : SysCtx where
  worktreePath := "/wt"
  statOk := fun _ => false
  readFile := fun _ => none
  lookPathOk := fun _ => false
  goos := "linux"
  procEnv := fun _ => none
  envFile := fun f k => if f = ".env" ∧ k = "EMPTY" then some "" else none

end Cond

/-- C6: for every environment-file argument (bare key or
`\x7bfile, key\x7d` map), `env_file_contains` evaluates to false when the
key is present with an empty-string value, and `env_file_missing`
evaluates to exactly the boolean negation of `env_file_contains` on
the same argument (for every argument whatsoever). -/
theorem envFileContains_emptyValue_and_missing_negation
    (ctx : Cond.SysCtx) (v : Cond.CVal) (f k : String)
    (hdec : Cond.decodeEnvFileArg v = some (f, k))
    (hval : ctx.envFile f k = some "") :
    Cond.envFileContains ctx v = .ok false ∧
    Cond.envFileMissing ctx v = .ok true ∧
    ∀ (ctx2 : Cond.SysCtx) (w : Cond.CVal) (b : Bool),
      Cond.envFileContains ctx2 w = .ok b → Cond.envFileMissing ctx2 w = .ok !b := by
  have hneg : ∀ (ctx2 : Cond.SysCtx) (w : Cond.CVal) (b : Bool),
      Cond.envFileContains ctx2 w = .ok b → Cond.envFileMissing ctx2 w = .ok !b := by
    intro ctx2 w b hb
    unfold Cond.envFileMissing
    rw [hb]
  have hc : Cond.envFileContains ctx v = .ok false := by
    unfold Cond.envFileContains
    rw [hdec]
    by_cases hfk : f = "" ∨ k = ""
    · simp [hfk]
    · simp [hfk, hval]
  exact ⟨hc, by simpa using hneg ctx v false hc, hneg⟩

/-- Witness for C6: the key `EMPTY` is present with value `""` in the
example context's `.env` file. -/
theorem envFileContains_emptyValue_and_missing_negation_witness :
    Cond.decodeEnvFileArg (Cond.CVal.str "EMPTY") = some (".env", "EMPTY") ∧
    Cond.sysCtxEx.envFile ".env" "EMPTY" = some "" ∧
    (Cond.envFileContains Cond.sysCtxEx (Cond.CVal.str "EMPTY") = .ok false ∧
     Cond.envFileMissing Cond.sysCtxEx (Cond.CVal.str "EMPTY") = .ok true ∧
     ∀ (ctx2 : Cond.SysCtx) (w : Cond.CVal) (b : Bool),
       Cond.envFileContains ctx2 w = .ok b → Cond.envFileMissing ctx2 w = .ok !b) :=
  ⟨rfl, by decide,
   envFileContains_emptyValue_and_missing_negation Cond.sysCtxEx
     (Cond.CVal.str "EMPTY") ".env" "EMPTY" rfl (by decide)⟩

/-- C9 (counterexample): a list condition that contains a non-map
element does not necessarily panic — a preceding map element that
evaluates to false short-circuits the conjunction before the unchecked
type assertion is reached. -/
theorem evaluateArrayCondition_nonmap_no_panic_counterexample :
    Cond.evaluateArrayCondition Cond.sysCtxEx
        [Cond.CVal.map [("file_exists", Cond.CVal.str "")], Cond.CVal.str "stray"]
      = .ok false ∧
    (∀ es, Cond.CVal.str "stray" ≠ Cond.CVal.map es) := by
  constructor
  · simp [Cond.evaluateArrayCondition, Cond.evaluateCondition, Cond.evaluateMapCondition,
      Cond.evaluateSingle, Cond.fileExists, Cond.strOrField]
  · exact fun es h => nomatch h

/-- C9 (amended): `evaluateArrayCondition` panics exactly when
evaluation reaches a non-map element: if every element before the first
non-map element is a map evaluating to true, the unchecked type
assertion on that element panics at run time. -/
theorem evaluateArrayCondition_panics_on_reached_nonmap
    (ctx : Cond.SysCtx) (pre : List Cond.CVal) (item : Cond.CVal) (post : List Cond.CVal)
    (hpre : ∀ c ∈ pre, (∃ es, c = Cond.CVal.map es) ∧ Cond.evaluateCondition ctx c = .ok true)
    (hitem : ∀ es, item ≠ Cond.CVal.map es) :
    Cond.evaluateArrayCondition ctx (pre ++ item :: post) = .panicked := by
  induction pre with
  | nil =>
    simp only [List.nil_append]
    cases item with
    | map es => exact absurd rfl (hitem es)
    | str s => simp [Cond.evaluateArrayCondition]
    | list l => simp [Cond.evaluateArrayCondition]
  | cons c pre ih =>
    obtain ⟨⟨es, hc⟩, htrue⟩ := hpre c (by simp)
    subst hc
    have ih' := ih (fun d hd => hpre d (by simp [hd]))
    simp only [List.cons_append, Cond.evaluateArrayCondition, htrue]
    exact ih'

/-- Witness for the amended C9: a bare string as the first element of a
list condition panics. -/
theorem evaluateArrayCondition_panics_on_reached_nonmap_witness :
    (∀ es, Cond.CVal.str "stray2" ≠ Cond.CVal.map es) ∧
    Cond.evaluateArrayCondition Cond.sysCtxEx ([] ++ Cond.CVal.str "stray2" :: []) = .panicked :=
  ⟨(fun es h => nomatch h),
   evaluateArrayCondition_panics_on_reached_nonmap Cond.sysCtxEx [] _ []
     (by simp) (fun es h => nomatch h)⟩

/-! ## Template substitution of `BinaryStep`
(`internal/scaffold/steps/binary.go`, `replaceTemplate`) -/

namespace BinaryStep

/-- `strings.ReplaceAll`: replace every non-overlapping occurrence of
`pat`, scanning left to right.  The fuel argument (instantiated with
the input length) only bounds the recursion; one unit is consumed per
examined position, so `s.length` fuel always suffices. -/
def replaceAllFrom (pat rep : List Char) : Nat → List Char → List Char
  | _, [] => []
  | 0, s => s
  | fuel + 1, c :: rest =>
    if pat ≠ [] ∧ pat.isPrefixOf (c :: rest) then
      rep ++ replaceAllFrom pat rep fuel ((c :: rest).drop pat.length)
    else c :: replaceAllFrom pat rep fuel rest

/-- `strings.ReplaceAll` on strings (the patterns used below are never
empty). -/
def replaceAllStr (s pat rep : String) : String :=
  String.mk (replaceAllFrom pat.data rep.data s.data.length s.data)

/-- `BinaryStep.replaceTemplate` of `binary.go`: three fixed
`strings.ReplaceAll` passes over each argument, substituting the
`RepoName`, `SiteName` and `Branch` context fields.  Note the return
type: there is no error channel, and unrecognized placeholders are not
touched. -/
def replaceTemplate (args : List String) (repoName siteName branch : String) : List String :=
  args.map (fun arg =>
    replaceAllStr
      (replaceAllStr
        (replaceAllStr arg "\x7b\x7b .RepoName \x7d\x7d" repoName)
        "\x7b\x7b .SiteName \x7d\x7d" siteName)
      "\x7b\x7b .Branch \x7d\x7d" branch)

-- sanity: recognized placeholders are substituted
example : replaceTemplate ["link", "\x7b\x7b .SiteName \x7d\x7d"] "repo" "mysite" "main"
    = ["link", "mysite"] := by decide

end BinaryStep

/-- C7 (failing input for the code bug): `replaceTemplate` has no error
channel, and on an argument containing the unrecognized placeholder
`\x7b\x7b .Unknown \x7d\x7d` it returns the argument with the
placeholder left verbatim in place, while the specification (and the
repository README, "Fails fast on unknown variables with clear error
messages") require a substitution-time error. -/
theorem replaceTemplate_leaves_unknown_placeholder :
    BinaryStep.replaceTemplate ["\x7b\x7b .Unknown \x7d\x7d"] "repo" "site" "main"
      = ["\x7b\x7b .Unknown \x7d\x7d"] := by decide

/-! ## Step executor

The `StepExecutor` implementation is not present in the provided
sources; only its test suite (`TestStepExecutor_*`) and its callers
(`ScaffoldManager.RunScaffold` / `RunCleanup`) are.  The definitions
below are modelled from the spec (§4.4 "Step Executor — the scheduler")
and validated against the behaviours the tests pin down: stable
ascending sort by priority, contiguous grouping, skip bookkeeping for
false conditions and dry-run, an aggregate error of the form
`"<name> failed: <err>"`, sibling steps of a failing group still
running, and later groups not running. -/

namespace Exec

/-- A step as the executor sees it: its name and priority, the
(synchronously pre-evaluated) result of its `Condition`, and the
outcome its `Run` would produce (`none` = success). -/
structure MStep where
  name : String
  priority : Int
  cond : Bool
  runError : Option String
deriving DecidableEq

/-- Modelled from the spec: stable insertion of a step into a sorted
list — the new step goes before the first element of priority not
smaller than its own, so earlier-listed steps keep their relative
order among equal priorities. -/
def insertSorted (s : MStep) : List MStep → List MStep
  | [] => [s]
  | t :: ts => if s.priority ≤ t.priority then s :: t :: ts else t :: insertSorted s ts

/-- Modelled from the spec: `StepExecutor.sortByPriority` (implementation
missing from the sources; spec §4.4.1): sort ascending by `Priority`,
ties keeping a stable relative order. -/
def sortByPriority : List MStep → List MStep
  | [] => []
  | s :: rest => insertSorted s (sortByPriority rest)

/-- Modelled from the spec: `StepExecutor.groupByPriority` (implementation
missing from the sources; spec §4.4.2): partition a sorted sequence into
contiguous runs sharing one `Priority` value, by comparing each step
with the first step of the adjacent group. -/
def groupByPriority : List MStep → List (List MStep)
  | [] => []
  | s :: rest =>
    match groupByPriority rest with
    | [] => [[s]]
    | [] :: gs => [s] :: gs
    | (t :: g) :: gs =>
      if s.priority = t.priority then (s :: t :: g) :: gs
      else [s] :: (t :: g) :: gs

/-- Per-step outcome, as reported by `Results()`. -/
structure StepResult where
  step : MStep
  skipped : Bool
  error : Option String
deriving DecidableEq

/-- Modelled from the spec: one priority group's execution (spec
§4.4.3): steps whose condition is false, or any step under dry-run, are
recorded as skipped; all remaining steps are dispatched and all run to
completion regardless of sibling failures, each recording its own
outcome. -/
def runGroup (dryRun : Bool) (g : List MStep) : List StepResult :=
  g.map (fun s =>
    if !s.cond || dryRun then ⟨s, true, none⟩ else ⟨s, false, s.runError⟩)

/-- Modelled from the spec: the aggregate error of a finished group —
the first-detected failure determines the message, which names the
failing step and wraps its error (`"<name> failed: <err>"`, the shape
`TestStepExecutor_Execute_StepFails` checks). -/
def groupError (rs : List StepResult) : Option String :=
  match rs.find? (fun r => !r.skipped && r.error.isSome) with
  | some r => some (r.step.name ++ " failed: " ++ r.error.getD "")
  | none => none

/-- Modelled from the spec: the group loop of `StepExecutor.Execute`
(spec §4.4.3): process groups in priority order, accumulate every
processed group's results (including the failing group's), and stop
before the next group as soon as one group reports an error. -/
def executeGroups (dryRun : Bool) : List (List MStep) → List StepResult × Option String
  | [] => ([], none)
  | g :: gs =>
    let rs := runGroup dryRun g
    match groupError rs with
    | some e => (rs, some e)
    | none =>
      let rest := executeGroups dryRun gs
      (rs ++ rest.1, rest.2)

/-- Modelled from the spec: `StepExecutor.Execute` — sort, group, then
run the groups. -/
def Execute (dryRun : Bool) (steps : List MStep) : List StepResult × Option String :=
  executeGroups dryRun (groupByPriority (sortByPriority steps))

-- sanity checks mirroring TestStepExecutor_SortByPriority / _GroupByPriority
example :
    (sortByPriority [⟨"step3", 30, true, none⟩, ⟨"step1", 10, true, none⟩,
      ⟨"step2", 20, true, none⟩]).map (·.name) = ["step1", "step2", "step3"] := by decide
example :
    (groupByPriority [⟨"step1", 10, true, none⟩, ⟨"step2", 10, true, none⟩,
      ⟨"step3", 20, true, none⟩, ⟨"step4", 30, true, none⟩,
      ⟨"step5", 30, true, none⟩]).map List.length = [2, 1, 2] := by decide
-- sanity check mirroring TestStepExecutor_Execute_StepFails
example :
    (Execute false [⟨"step1", 10, true, none⟩, ⟨"step2", 20, true, some "boom"⟩]).2
      = some "step2 failed: boom" := by decide
-- sanity check mirroring TestStepExecutor_Execute_DryRun
example :
    (Execute true [⟨"step1", 10, true, some "boom"⟩]).2 = none := by decide

theorem mem_insertSorted {x s : MStep} {l : List MStep} :
    x ∈ insertSorted s l ↔ x = s ∨ x ∈ l := by
  induction l with
  | nil => simp [insertSorted]
  | cons t ts ih =>
    unfold insertSorted
    by_cases h : s.priority ≤ t.priority
    · simp [h]
    · simp only [h, if_false, List.mem_cons, ih]
      tauto

theorem pairwise_insertSorted {s : MStep} {l : List MStep}
    (h : l.Pairwise (fun a b => a.priority ≤ b.priority)) :
    (insertSorted s l).Pairwise (fun a b => a.priority ≤ b.priority) := by
  induction l with
  | nil => simp [insertSorted]
  | cons t ts ih =>
    rw [List.pairwise_cons] at h
    obtain ⟨ht, hts⟩ := h
    unfold insertSorted
    by_cases hle : s.priority ≤ t.priority
    · rw [if_pos hle, List.pairwise_cons]
      refine ⟨?_, List.pairwise_cons.mpr ⟨ht, hts⟩⟩
      intro a ha
      rcases List.mem_cons.mp ha with rfl | ha
      · exact hle
      · exact le_trans hle (ht a ha)
    · rw [if_neg hle, List.pairwise_cons]
      refine ⟨?_, ih hts⟩
      intro a ha
      rcases mem_insertSorted.mp ha with rfl | ha
      · omega
      · exact ht a ha

theorem sorted_sortByPriority (l : List MStep) :
    (sortByPriority l).Pairwise (fun a b => a.priority ≤ b.priority) := by
  induction l with
  | nil => simp [sortByPriority]
  | cons s rest ih => exact pairwise_insertSorted ih

theorem filter_insertSorted (s : MStep) (l : List MStep) (p : Int) :
    (insertSorted s l).filter (fun t => decide (t.priority = p))
      = if s.priority = p then s :: l.filter (fun t => decide (t.priority = p))
        else l.filter (fun t => decide (t.priority = p)) := by
  induction l with
  | nil => by_cases h : s.priority = p <;> simp [insertSorted, h]
  | cons t ts ih =>
    unfold insertSorted
    by_cases hle : s.priority ≤ t.priority
    · rw [if_pos hle]
      by_cases hs : s.priority = p <;> simp [List.filter_cons, hs]
    · rw [if_neg hle, List.filter_cons, List.filter_cons, ih]
      by_cases hs : s.priority = p <;> by_cases htp : t.priority = p <;>
        (simp [hs, htp]; try omega)

theorem filter_sortByPriority (l : List MStep) (p : Int) :
    (sortByPriority l).filter (fun t => decide (t.priority = p))
      = l.filter (fun t => decide (t.priority = p)) := by
  induction l with
  | nil => rfl
  | cons s rest ih =>
    show (insertSorted s (sortByPriority rest)).filter _ = _
    rw [filter_insertSorted, List.filter_cons, ih]
    by_cases hs : s.priority = p <;> simp [hs]

theorem flatten_groupByPriority (l : List MStep) :
    (groupByPriority l).flatten = l := by
  induction l with
  | nil => rfl
  | cons s rest ih =>
    unfold groupByPriority
    match hg : groupByPriority rest with
    | [] => simp only [hg] at ih; simp [← ih]
    | [] :: gs => simp only [hg] at ih ⊢; simpa using ih
    | (t :: g) :: gs =>
      simp only [hg] at ih ⊢
      by_cases h : s.priority = t.priority <;> simp [h] <;> simpa using ih

theorem ne_nil_of_mem_groupByPriority {g : List MStep} {l : List MStep}
    (hg : g ∈ groupByPriority l) : g ≠ [] := by
  induction l generalizing g with
  | nil => simp [groupByPriority] at hg
  | cons s rest ih =>
    unfold groupByPriority at hg
    match hgr : groupByPriority rest with
    | [] =>
      simp only [hgr, List.mem_singleton] at hg
      simp [hg]
    | [] :: gs =>
      simp only [hgr, List.mem_cons] at hg
      rcases hg with rfl | hg
      · simp
      · exact ih (hgr ▸ List.mem_cons_of_mem _ hg)
    | (t :: g₀) :: gs =>
      simp only [hgr] at hg
      by_cases h : s.priority = t.priority
      · rw [if_pos h] at hg
        rcases List.mem_cons.mp hg with rfl | hg
        · simp
        · exact ih (hgr ▸ List.mem_cons_of_mem _ hg)
      · rw [if_neg h] at hg
        rcases List.mem_cons.mp hg with rfl | hg
        · simp
        · exact ih (hgr ▸ hg)

theorem uniform_of_mem_groupByPriority {g : List MStep} {l : List MStep}
    (hg : g ∈ groupByPriority l) : ∀ a ∈ g, ∀ b ∈ g, a.priority = b.priority := by
  induction l generalizing g with
  | nil => simp [groupByPriority] at hg
  | cons s rest ih =>
    unfold groupByPriority at hg
    match hgr : groupByPriority rest with
    | [] =>
      simp only [hgr, List.mem_singleton] at hg
      subst hg
      intro a ha b hb
      simp only [List.mem_singleton] at ha hb
      rw [ha, hb]
    | [] :: gs =>
      simp only [hgr, List.mem_cons] at hg
      rcases hg with rfl | hg
      · intro a ha b hb
        simp only [List.mem_singleton] at ha hb
        rw [ha, hb]
      · exact ih (hgr ▸ List.mem_cons_of_mem _ hg)
    | (t :: g₀) :: gs =>
      simp only [hgr] at hg
      have huni : ∀ a ∈ t :: g₀, ∀ b ∈ t :: g₀, a.priority = b.priority :=
        ih (hgr ▸ List.mem_cons_self _ _)
      by_cases h : s.priority = t.priority
      · rw [if_pos h] at hg
        rcases List.mem_cons.mp hg with rfl | hg
        · intro a ha b hb
          have key : ∀ c ∈ s :: t :: g₀, c.priority = t.priority := by
            intro c hc
            rcases List.mem_cons.mp hc with rfl | hc
            · exact h
            · exact huni c hc t (List.mem_cons_self _ _)
          rw [key a ha, key b hb]
        · exact ih (hgr ▸ List.mem_cons_of_mem _ hg)
      · rw [if_neg h] at hg
        rcases List.mem_cons.mp hg with rfl | hg
        · intro a ha b hb
          simp only [List.mem_singleton] at ha hb
          rw [ha, hb]
        · exact ih (hgr ▸ hg)

theorem pairwise_lt_groupByPriority {l : List MStep}
    (hl : l.Pairwise (fun a b => a.priority ≤ b.priority)) :
    (groupByPriority l).Pairwise
      (fun g h => ∀ a ∈ g, ∀ b ∈ h, a.priority < b.priority) := by
  induction l with
  | nil => simp [groupByPriority]
  | cons s rest ih =>
    rw [List.pairwise_cons] at hl
    obtain ⟨hs, hrest⟩ := hl
    have ihr := ih hrest
    unfold groupByPriority
    match hgr : groupByPriority rest with
    | [] => simp
    | [] :: gs =>
      exact absurd rfl (ne_nil_of_mem_groupByPriority (hgr ▸ List.mem_cons_self _ _))
    | (t :: g₀) :: gs =>
      rw [hgr, List.pairwise_cons] at ihr
      obtain ⟨hcr, pgs⟩ := ihr
      have hmem : ∀ b : MStep, ∀ h ∈ (t :: g₀) :: gs, b ∈ h → b ∈ rest := by
        intro b h hh hb
        have : b ∈ ((t :: g₀) :: gs).flatten := List.mem_flatten.mpr ⟨h, hh, hb⟩
        rwa [← hgr, flatten_groupByPriority] at this
      have huni : ∀ a ∈ t :: g₀, ∀ b ∈ t :: g₀, a.priority = b.priority :=
        uniform_of_mem_groupByPriority (hgr ▸ List.mem_cons_self _ _)
      show List.Pairwise _
        (if s.priority = t.priority then (s :: t :: g₀) :: gs else [s] :: (t :: g₀) :: gs)
      by_cases h : s.priority = t.priority
      · rw [if_pos h, List.pairwise_cons]
        refine ⟨?_, pgs⟩
        intro h' hh' a ha b hb
        rcases List.mem_cons.mp ha with rfl | ha
        · have := hcr h' hh' t (List.mem_cons_self _ _) b hb
          omega
        · exact hcr h' hh' a ha b hb
      · rw [if_neg h, List.pairwise_cons]
        constructor
        · intro h' hh' a ha b hb
          simp only [List.mem_singleton] at ha
          subst ha
          rcases List.mem_cons.mp hh' with rfl | hh'
          · have hbt : b.priority = t.priority := huni b hb t (List.mem_cons_self _ _)
            have hsb : a.priority ≤ b.priority :=
              hs b (hmem b _ (List.mem_cons_self _ _) hb)
            omega
          · have htb : t.priority < b.priority :=
              hcr h' hh' t (List.mem_cons_self _ _) b hb
            have hst : a.priority ≤ t.priority :=
              hs t (hmem t _ (List.mem_cons_self _ _) (List.mem_cons_self _ _))
            omega
        · rw [List.pairwise_cons]
          exact ⟨hcr, pgs⟩

theorem groupError_runGroup_some (g : List MStep)
    (hg : ∃ s ∈ g, s.cond = true ∧ s.runError.isSome = true) :
    ∃ s ∈ g, ∃ e, s.cond = true ∧ s.runError = some e ∧
      groupError (runGroup false g) = some (s.name ++ " failed: " ++ e) := by
  obtain ⟨s₀, hs₀, hc₀, he₀⟩ := hg
  have hfind : (List.find? (fun r => !r.skipped && r.error.isSome) (runGroup false g)).isSome := by
    rw [List.find?_isSome]
    refine ⟨⟨s₀, false, s₀.runError⟩, ?_, ?_⟩
    · exact List.mem_map.mpr ⟨s₀, hs₀, by simp [hc₀]⟩
    · simp [he₀]
  obtain ⟨r, hr⟩ := Option.isSome_iff_exists.mp hfind
  have hmem := List.mem_of_find?_eq_some hr
  have hprop := List.find?_some hr
  obtain ⟨s, hs, hrs⟩ := List.mem_map.mp hmem
  simp only [Bool.or_false] at hrs
  by_cases hcs : s.cond
  · rw [hcs] at hrs
    simp only [Bool.not_true, Bool.false_eq_true, if_false] at hrs
    subst hrs
    simp only [Bool.not_false, Bool.true_and] at hprop
    obtain ⟨e, he⟩ := Option.isSome_iff_exists.mp hprop
    refine ⟨s, hs, e, hcs, he, ?_⟩
    unfold groupError
    rw [hr]
    simp [he]
  · simp only [Bool.not_eq_true] at hcs
    rw [hcs] at hrs
    simp only [Bool.not_false, if_true] at hrs
    subst hrs
    simp at hprop

theorem executeGroups_group_failure (pre : List (List MStep)) (g : List MStep)
    (post : List (List MStep))
    (hpre : ∀ h ∈ pre, groupError (runGroup false h) = none)
    (hg : ∃ s ∈ g, s.cond = true ∧ s.runError.isSome = true) :
    (executeGroups false (pre ++ g :: post)).1
        = (pre.map (runGroup false)).flatten ++ runGroup false g ∧
    (executeGroups false (pre ++ g :: post)).2 = groupError (runGroup false g) := by
  induction pre with
  | nil =>
    obtain ⟨s, hs, e, hc, he, hge⟩ := groupError_runGroup_some g hg
    refine ⟨?_, ?_⟩ <;> simp [executeGroups, hge]
  | cons h pre ih =>
    have hh : groupError (runGroup false h) = none := hpre h (List.mem_cons_self _ _)
    obtain ⟨ih1, ih2⟩ := ih (fun h' hh' => hpre h' (List.mem_cons_of_mem _ hh'))
    simp only [List.cons_append, executeGroups, hh, List.map_cons, List.flatten_cons,
      List.append_eq]
    exact ⟨by rw [ih1, List.append_assoc], ih2⟩

end Exec

/-- C3: whenever a step of one priority group fails, every other
dispatched (condition-true) step of that group still runs to
completion and records its own outcome — none is canceled —, the
executor's aggregate result is exactly the results of the earlier
groups and of the whole failing group and nothing else (so no step of
any later priority group is executed), and the executor returns an
aggregate error naming the first failing step and wrapping its error. -/
theorem stepExecutor_group_failure (steps : List Exec.MStep)
    (pre : List (List Exec.MStep)) (g : List Exec.MStep) (post : List (List Exec.MStep))
    (hsplit : Exec.groupByPriority (Exec.sortByPriority steps) = pre ++ g :: post)
    (hpre : ∀ h ∈ pre, Exec.groupError (Exec.runGroup false h) = none)
    (hg : ∃ s ∈ g, s.cond = true ∧ s.runError.isSome = true) :
    (∀ s ∈ g, s.cond = true →
        (⟨s, false, s.runError⟩ : Exec.StepResult) ∈ (Exec.Execute false steps).1) ∧
    (Exec.Execute false steps).1
        = (pre.map (Exec.runGroup false)).flatten ++ Exec.runGroup false g ∧
    ∃ s ∈ g, ∃ e, s.cond = true ∧ s.runError = some e ∧
      (Exec.Execute false steps).2 = some (s.name ++ " failed: " ++ e) := by
  have hex : Exec.Execute false steps = Exec.executeGroups false (pre ++ g :: post) := by
    unfold Exec.Execute
    rw [hsplit]
  obtain ⟨h1, h2⟩ := Exec.executeGroups_group_failure pre g post hpre hg
  obtain ⟨s, hs, e, hc, he, hge⟩ := Exec.groupError_runGroup_some g hg
  refine ⟨?_, by rw [hex, h1], s, hs, e, hc, he, by rw [hex, h2, hge]⟩
  intro s' hs' hc'
  rw [hex, h1]
  refine List.mem_append_right _ (List.mem_map.mpr ⟨s', hs', ?_⟩)
  simp [hc']

/-- Witness for C3, mirroring
`TestStepExecutor_ParallelExecution_ErrorPropagation` plus one later
group: three condition-true steps of priority 10, the middle one
failing, and one step of priority 20 that must not run. -/
theorem stepExecutor_group_failure_witness :
    (Exec.groupByPriority (Exec.sortByPriority
        [⟨"step1", 10, true, none⟩, ⟨"step2", 10, true, some "boom"⟩,
         ⟨"step3", 10, true, none⟩, ⟨"step4", 20, true, none⟩])
      = [] ++ [⟨"step1", 10, true, none⟩, ⟨"step2", 10, true, some "boom"⟩,
         ⟨"step3", 10, true, none⟩] :: [[⟨"step4", 20, true, none⟩]]) ∧
    (∃ s ∈ [(⟨"step1", 10, true, none⟩ : Exec.MStep), ⟨"step2", 10, true, some "boom"⟩,
         ⟨"step3", 10, true, none⟩], s.cond = true ∧ s.runError.isSome = true) ∧
    ((∀ s ∈ [(⟨"step1", 10, true, none⟩ : Exec.MStep), ⟨"step2", 10, true, some "boom"⟩,
         ⟨"step3", 10, true, none⟩], s.cond = true →
        (⟨s, false, s.runError⟩ : Exec.StepResult) ∈
          (Exec.Execute false [⟨"step1", 10, true, none⟩, ⟨"step2", 10, true, some "boom"⟩,
            ⟨"step3", 10, true, none⟩, ⟨"step4", 20, true, none⟩]).1) ∧
    (Exec.Execute false [⟨"step1", 10, true, none⟩, ⟨"step2", 10, true, some "boom"⟩,
        ⟨"step3", 10, true, none⟩, ⟨"step4", 20, true, none⟩]).1
        = (([] : List (List Exec.MStep)).map (Exec.runGroup false)).flatten
            ++ Exec.runGroup false [⟨"step1", 10, true, none⟩,
                ⟨"step2", 10, true, some "boom"⟩, ⟨"step3", 10, true, none⟩] ∧
    ∃ s ∈ [(⟨"step1", 10, true, none⟩ : Exec.MStep), ⟨"step2", 10, true, some "boom"⟩,
         ⟨"step3", 10, true, none⟩], ∃ e, s.cond = true ∧ s.runError = some e ∧
      (Exec.Execute false [⟨"step1", 10, true, none⟩, ⟨"step2", 10, true, some "boom"⟩,
          ⟨"step3", 10, true, none⟩, ⟨"step4", 20, true, none⟩]).2
        = some (s.name ++ " failed: " ++ e)) :=
  ⟨by decide, by decide,
   stepExecutor_group_failure _ [] _ [[⟨"step4", 20, true, none⟩]]
     (by decide) (by decide) (by decide)⟩

/-- C4: the executor's sort orders steps by ascending priority and is
stable (equal-priority steps keep their relative order: the
subsequence of any fixed priority is unchanged), and grouping the
sorted sequence yields contiguous, non-overlapping, non-empty groups —
their concatenation is exactly the sorted sequence, each group holds
steps of a single priority, and distinct groups hold strictly
increasing (hence distinct) priorities. -/
theorem sortByPriority_groupByPriority_stable_partition (l : List Exec.MStep) :
    ((Exec.sortByPriority l).Pairwise fun a b => a.priority ≤ b.priority) ∧
    (∀ p : Int, (Exec.sortByPriority l).filter (fun t => decide (t.priority = p))
        = l.filter (fun t => decide (t.priority = p))) ∧
    (Exec.groupByPriority (Exec.sortByPriority l)).flatten = Exec.sortByPriority l ∧
    (∀ g ∈ Exec.groupByPriority (Exec.sortByPriority l),
      g ≠ [] ∧ ∀ a ∈ g, ∀ b ∈ g, a.priority = b.priority) ∧
    (Exec.groupByPriority (Exec.sortByPriority l)).Pairwise
      (fun g h => ∀ a ∈ g, ∀ b ∈ h, a.priority < b.priority) :=
  ⟨Exec.sorted_sortByPriority l, fun p => Exec.filter_sortByPriority l p,
   Exec.flatten_groupByPriority _,
   fun _ hg => ⟨Exec.ne_nil_of_mem_groupByPriority hg,
     Exec.uniform_of_mem_groupByPriority hg⟩,
   Exec.pairwise_lt_groupByPriority (Exec.sorted_sortByPriority l)⟩

/-! ## Database provisioning step (`DbCreateStep`)

Embedded from the current, client-factory-based `DbCreateStep`
(`internal/scaffold/steps`): `Run`, `detectEngine`,
`getPrefixOrSiteName`, `createWithRetry` and `persistDbSuffix`.  The
database client is abstracted as an oracle `client : Nat → CreateResult`
giving the outcome of the n-th `CreateDatabase` call of the run (the
shape of `MockDatabaseClient`), and the random suffix generator as
`supply : Nat → String` giving the suffix generated on the n-th
attempt.  `ctx.GetDbSuffix`/`SetDbSuffix` and the persisted worktree
record are carried in an explicit state. -/

namespace Db

/-- Outcome of one `client.CreateDatabase(name)` call.
`alreadyExists` stands for an error satisfying `IsDatabaseExistsError`
(a `DatabaseExistsError`, whose message is
`"database <name> already exists"`); `fail msg` is any other error. -/
inductive CreateResult where
  | ok
  | alreadyExists
  | fail (msg : String)
deriving DecidableEq

/-- The message of a `DatabaseExistsError` (`dbclient.go`). -/
def existsErrMsg (name : String) : String :=
  "database " ++ name ++ " already exists"

/-- The run-scoped state the step reads and writes: the Run Context's
`DbSuffix` slot (`""` = unset) and the worktree-local persisted
`db_suffix` record. -/
structure DbRunState where
  dbSuffix : String
  persisted : Option String
deriving DecidableEq

/-- The observable outcome of a `Run`: the final state, the database
names passed to `CreateDatabase` in order, and the step's returned
error (`none` = nil). -/
structure DbRunOut where
  state : DbRunState
  calls : List String
  err : Option String
deriving DecidableEq

/-- `maxDbCreateRetries` of the source. -/
def maxDbCreateRetries : Nat := 5

/-- `DbCreateStep.detectEngine`: explicit `type` configuration wins,
otherwise the engine is inferred from `DB_CONNECTION` in the `.env`
file (`env` is the parsed file, absent keys mapping to `""`). -/
def detectEngine (dbType : String) (env : String → String) : Except String String :=
  if dbType ≠ "" then
    if dbType = "mysql" ∨ dbType = "pgsql" ∨ dbType = "sqlite" then .ok dbType
    else .error ("unsupported database type: " ++ dbType)
  else
    let conn := env "DB_CONNECTION"
    if conn = "mysql" ∨ conn = "mariadb" then .ok "mysql"
    else if conn = "pgsql" ∨ conn = "postgres" ∨ conn = "postgresql" then .ok "pgsql"
    else if conn = "sqlite" then .ok "sqlite"
    else .error "database type not specified and DB_CONNECTION not found in .env"

/-- The `--prefix` scan of `DbCreateStep.getPrefixOrSiteName`: the
value following the first `--prefix` argument, if any. -/
def findPrefixArg : List String → Option String
  | a :: v :: rest => if a = "--prefix" then some v else findPrefixArg (v :: rest)
  | _ => none

/-- `DbCreateStep.getPrefixOrSiteName`: an explicit `--prefix` argument
wins; otherwise the site name, the `.env` `APP_NAME`, or `"app"`. -/
def getPrefixOrSiteName (args : List String) (siteName : String)
    (env : String → String) : String :=
  match findPrefixArg args with
  | some p => p
  | none =>
    let s := if siteName = "" then env "APP_NAME" else siteName
    if s = "" then "app" else s

/-- `DbCreateStep.persistDbSuffix`: write the context's suffix to the
worktree-local record, unless it is empty. -/
def persistDbSuffix (st : DbRunState) : DbRunState :=
  if st.dbSuffix = "" then st else { st with persisted := some st.dbSuffix }

/-- The `for attempt := 0; attempt < maxDbCreateRetries` loop of
`DbCreateStep.createWithRetry`: reuse a non-empty context suffix
verbatim (naming the database `SanitizeSiteName(siteName) + "_" +
suffix`), otherwise generate a fresh suffix and store it in the
context; on success persist the suffix; on a non-"already exists"
failure return a wrapped hard error; on an "already exists" failure
clear the context suffix (`ctx.SetDbSuffix("")`) and retry.
`remaining` counts the attempts still allowed, `attempt` the current
attempt index. -/
def retryLoop (client : Nat → CreateResult) (supply : Nat → String) (siteName : String) :
    Nat → Nat → DbRunState → String → DbRunOut
  | 0, _, st, lastErr =>
    { state := st, calls := [],
      err := some ("failed to create database after "
        ++ toString maxDbCreateRetries ++ " attempts: " ++ lastErr) }
  | r + 1, attempt, st, _ =>
    let gen : String × DbRunState :=
      if st.dbSuffix ≠ "" then
        (Words.SanitizeSiteName siteName ++ "_" ++ st.dbSuffix, st)
      else
        (Words.GenerateDatabaseName siteName 0 (supply attempt),
         { st with dbSuffix := supply attempt })
    let dbName := gen.1
    let st' := gen.2
    match client attempt with
    | .ok => { state := persistDbSuffix st', calls := [dbName], err := none }
    | .fail msg =>
      { state := st', calls := [dbName],
        err := some ("failed to create database: " ++ msg) }
    | .alreadyExists =>
      let rest := retryLoop client supply siteName r (attempt + 1)
        { st' with dbSuffix := "" } (existsErrMsg dbName)
      { rest with calls := dbName :: rest.calls }

/-- `DbCreateStep.createWithRetry`: connect and ping the server; a ping
failure is a soft skip (`return nil`); otherwise run the retry loop.
(The client-factory error path is not modelled: the default factory
only errors on engines `Run` never passes, and test factories never
error.) -/
def createWithRetry (client : Nat → CreateResult) (supply : Nat → String)
    (pingOk : Bool) (siteName : String) (st : DbRunState) : DbRunOut :=
  if !pingOk then { state := st, calls := [], err := none }
  else retryLoop client supply siteName maxDbCreateRetries 0 st ""

/-- `DbCreateStep.Run`: resolve the engine (an unresolvable or invalid
engine is a soft skip returning nil), handle `sqlite` without any
suffix negotiation (the file-creation side effects are outside this
model and cannot touch the suffix state), and delegate server engines
to `createWithRetry`. -/
def Run (dbType : String) (args : List String) (siteName : String)
    (env : String → String) (client : Nat → CreateResult) (supply : Nat → String)
    (pingOk : Bool) (st : DbRunState) : DbRunOut :=
  match detectEngine dbType env with
  | .error _ => { state := st, calls := [], err := none }
  | .ok engine =>
    if engine = "sqlite" then { state := st, calls := [], err := none }
    else createWithRetry client supply pingOk (getPrefixOrSiteName args siteName env) st

-- sanity: mirrors "creates database with mock client" + suffix persistence
example :
    Db.Run "" [] "testapp" (fun k => if k = "DB_CONNECTION" then "mysql" else "")
      (fun _ => .ok) (fun i => "s" ++ toString i) true ⟨"", none⟩
    = { state := ⟨"s0", some "s0"⟩, calls := ["testapp_s0"], err := none } := by decide

-- sanity: mirrors "retries on database exists error" (2 collisions, then success)
example :
    (Db.Run "" [] "testapp" (fun k => if k = "DB_CONNECTION" then "mysql" else "")
      (fun n => if n < 2 then .alreadyExists else .ok) (fun i => "s" ++ toString i)
      true ⟨"", none⟩).calls = ["testapp_s0", "testapp_s1", "testapp_s2"] := by decide

-- sanity: mirrors "db.create uses existing suffix from context"
example :
    Db.Run "" [] "testapp" (fun k => if k = "DB_CONNECTION" then "mysql" else "")
      (fun _ => .ok) (fun i => "s" ++ toString i) true ⟨"preexisting_suffix", none⟩
    = { state := ⟨"preexisting_suffix", some "preexisting_suffix"⟩,
        calls := ["testapp_preexisting_suffix"], err := none } := by decide

-- sanity: mirrors "fails after max retries"
example :
    (Db.Run "" [] "testapp" (fun k => if k = "DB_CONNECTION" then "mysql" else "")
      (fun _ => .alreadyExists) (fun i => "s" ++ toString i) true ⟨"", none⟩).err
    = some "failed to create database after 5 attempts: database testapp_s4 already exists" := by
  decide

theorem retryLoop_all_exists (client : Nat → CreateResult) (supply : Nat → String)
    (siteName : String) (r attempt : Nat) (st : DbRunState) (lastErr : String)
    (h0 : st.dbSuffix = "") (h1 : 1 ≤ r)
    (hcl : ∀ i, i < r → client (attempt + i) = .alreadyExists) :
    (retryLoop client supply siteName r attempt st lastErr).calls.length = r ∧
    (retryLoop client supply siteName r attempt st lastErr).err
        = some ("failed to create database after " ++ toString maxDbCreateRetries
            ++ " attempts: "
            ++ existsErrMsg (Words.GenerateDatabaseName siteName 0
                  (supply (attempt + r - 1)))) ∧
    (retryLoop client supply siteName r attempt st lastErr).state = st := by
  induction r generalizing attempt st lastErr with
  | zero => omega
  | succ r ih =>
    have hst : ({ st with dbSuffix := "" } : DbRunState) = st := by
      cases st
      simp_all
    have hc0 : client attempt = .alreadyExists := by simpa using hcl 0 (by omega)
    rcases Nat.eq_zero_or_pos r with hr | hr
    · subst hr
      simp [retryLoop, h0, hc0, hst]
    · have hsh : ∀ i, i < r → client (attempt + 1 + i) = .alreadyExists := by
        intro i hi
        have := hcl (i + 1) (by omega)
        rwa [show attempt + (i + 1) = attempt + 1 + i by omega] at this
      obtain ⟨ih1, ih2, ih3⟩ := ih (attempt + 1)
        ({ st with dbSuffix := "" })
        (existsErrMsg (Words.GenerateDatabaseName siteName 0 (supply attempt)))
        rfl hr hsh
      rw [show attempt + 1 + r - 1 = attempt + (r + 1) - 1 by omega] at ih2
      rw [hst] at ih3
      refine ⟨?_, ?_, ?_⟩
      · simp [retryLoop, h0, hc0, ih1]
      · simp [retryLoop, h0, hc0, ih2]
      · simp [retryLoop, h0, hc0, hst, ih3]

theorem retryLoop_succeeds (client : Nat → CreateResult) (supply : Nat → String)
    (siteName : String) (r attempt k : Nat) (st : DbRunState) (lastErr : String)
    (h0 : st.dbSuffix = "") (hk1 : 1 ≤ k) (hkr : k ≤ r)
    (hcl : ∀ i, i < k - 1 → client (attempt + i) = .alreadyExists)
    (hok : client (attempt + (k - 1)) = .ok) :
    (retryLoop client supply siteName r attempt st lastErr).calls.length = k ∧
    (retryLoop client supply siteName r attempt st lastErr).err = none ∧
    (retryLoop client supply siteName r attempt st lastErr).state.dbSuffix
        = supply (attempt + (k - 1)) ∧
    (supply (attempt + (k - 1)) ≠ "" →
      (retryLoop client supply siteName r attempt st lastErr).state.persisted
        = some (supply (attempt + (k - 1)))) := by
  induction k generalizing r attempt st lastErr with
  | zero => omega
  | succ k ih =>
    match r, hkr with
    | r + 1, hkr =>
    rcases Nat.eq_zero_or_pos k with hk0 | hkpos
    · subst hk0
      have hok' : client attempt = .ok := by simpa using hok
      have hred : retryLoop client supply siteName (r + 1) attempt st lastErr
          = { state := persistDbSuffix { st with dbSuffix := supply attempt },
              calls := [Words.GenerateDatabaseName siteName 0 (supply attempt)],
              err := none } := by
        simp [retryLoop, h0, hok']
      rw [hred]
      refine ⟨rfl, rfl, ?_, ?_⟩
      · unfold persistDbSuffix
        by_cases hsup : supply attempt = "" <;> simp [hsup]
      · intro hne
        have hne' : supply attempt ≠ "" := by simpa using hne
        unfold persistDbSuffix
        simp [hne']
    · have hc0 : client attempt = .alreadyExists := by
        have := hcl 0 (by omega)
        simpa using this
      have hsh : ∀ i, i < k - 1 → client (attempt + 1 + i) = .alreadyExists := by
        intro i hi
        have := hcl (i + 1) (by omega)
        rwa [show attempt + (i + 1) = attempt + 1 + i by omega] at this
      have hok' : client (attempt + 1 + (k - 1)) = .ok := by
        rwa [show attempt + (k + 1 - 1) = attempt + 1 + (k - 1) by omega] at hok
      obtain ⟨ih1, ih2, ih3, ih4⟩ := ih r (attempt + 1) ({ st with dbSuffix := "" })
        (existsErrMsg (Words.GenerateDatabaseName siteName 0 (supply attempt)))
        rfl hkpos (by omega) hsh hok'
      rw [show attempt + 1 + (k - 1) = attempt + (k + 1 - 1) by omega] at ih3 ih4
      refine ⟨?_, ?_, ?_, ?_⟩
      · simp [retryLoop, h0, hc0, ih1]
      · simp [retryLoop, h0, hc0, ih2]
      · simp [retryLoop, h0, hc0, ih3]
      · intro hne
        simp [retryLoop, h0, hc0, ih4 hne]

theorem Run_server (dbType : String) (args : List String) (siteName : String)
    (env : String → String) (client : Nat → CreateResult) (supply : Nat → String)
    (pingOk : Bool) (st : DbRunState) (engine : String)
    (heng : detectEngine dbType env = .ok engine) (hsql : engine ≠ "sqlite") :
    Run dbType args siteName env client supply pingOk st
      = createWithRetry client supply pingOk (getPrefixOrSiteName args siteName env) st := by
  unfold Run
  rw [heng]
  simp [hsql]

theorem errString_norm (m : String) :
    "failed to create database after " ++ toString maxDbCreateRetries ++ " attempts: " ++ m
      = "failed to create database after 5 attempts: " ++ m := by
  congr 1

theorem strContains_after_5_attempts (m : String) :
    Cond.strContains ("failed to create database after 5 attempts: " ++ m)
      "after 5 attempts" = true := by
  unfold Cond.strContains
  rw [decide_eq_true_eq]
  have hsplit : ("failed to create database after 5 attempts: " ++ m)
      = ("failed to create database " ++ "after 5 attempts" ++ ": ") ++ m := by
    congr 1
  rw [hsplit]
  refine ⟨"failed to create database ".data, ": ".data ++ m.data, ?_⟩
  simp [String.data_append, List.append_assoc]

end Db

/-- C1: a `db.create` run against a server engine with no pre-existing
suffix makes exactly 5 creation attempts when every attempt fails with
a "database already exists" error (each retry clearing the tentative
suffix and generating a fresh one), and then returns a hard error whose
message contains "after 5 attempts" and wraps the last underlying
failure; if attempt `k ≤ 5` succeeds, exactly `k` creation calls are
made and no error is returned. -/
theorem dbCreate_retry_attempts_and_error
    (dbType : String) (args : List String) (siteName : String) (env : String → String)
    (client : Nat → Db.CreateResult) (supply : Nat → String) (st : Db.DbRunState)
    (engine : String)
    (heng : Db.detectEngine dbType env = .ok engine) (hsql : engine ≠ "sqlite")
    (h0 : st.dbSuffix = "") :
    ((∀ i, i < 5 → client i = .alreadyExists) →
      (Db.Run dbType args siteName env client supply true st).calls.length = 5 ∧
      (Db.Run dbType args siteName env client supply true st).err
          = some ("failed to create database after 5 attempts: "
              ++ Db.existsErrMsg (Words.GenerateDatabaseName
                    (Db.getPrefixOrSiteName args siteName env) 0 (supply 4))) ∧
      (∀ m, (Db.Run dbType args siteName env client supply true st).err = some m →
        Cond.strContains m "after 5 attempts" = true)) ∧
    (∀ k, 1 ≤ k → k ≤ 5 →
      (∀ i, i < k - 1 → client i = .alreadyExists) → client (k - 1) = .ok →
      (Db.Run dbType args siteName env client supply true st).calls.length = k ∧
      (Db.Run dbType args siteName env client supply true st).err = none) := by
  rw [Db.Run_server dbType args siteName env client supply true st engine heng hsql]
  unfold Db.createWithRetry
  simp only [Bool.not_true, Bool.false_eq_true, if_false]
  constructor
  · intro hcl
    obtain ⟨h1, h2, _⟩ := Db.retryLoop_all_exists client supply
      (Db.getPrefixOrSiteName args siteName env) Db.maxDbCreateRetries 0 st "" h0
      (by decide) (fun i hi => by simpa using hcl i hi)
    rw [Db.errString_norm] at h2
    rw [show 0 + Db.maxDbCreateRetries - 1 = 4 by decide] at h2
    refine ⟨by simpa [Db.maxDbCreateRetries] using h1, h2, ?_⟩
    intro m hm
    rw [hm] at h2
    simp only [Option.some.injEq] at h2
    rw [h2]
    exact Db.strContains_after_5_attempts _
  · intro k hk1 hk5 hcl hok
    obtain ⟨h1, h2, _, _⟩ := Db.retryLoop_succeeds client supply
      (Db.getPrefixOrSiteName args siteName env) Db.maxDbCreateRetries 0 k st "" h0
      hk1 hk5 (fun i hi => by simpa using hcl i hi) (by simpa using hok)
    exact ⟨h1, h2⟩

/-- Witness for C1: five straight collisions on a mysql engine. -/
theorem dbCreate_retry_attempts_and_error_witness :
    Db.detectEngine "mysql" (fun _ => "") = .ok "mysql" ∧
    (⟨"", none⟩ : Db.DbRunState).dbSuffix = "" ∧
    (Db.Run "mysql" [] "testapp" (fun _ => "") (fun _ => .alreadyExists)
        (fun i => "s" ++ toString i) true ⟨"", none⟩).calls.length = 5 ∧
    (Db.Run "mysql" [] "testapp" (fun _ => "") (fun _ => .alreadyExists)
        (fun i => "s" ++ toString i) true ⟨"", none⟩).err
      = some "failed to create database after 5 attempts: database testapp_s4 already exists" := by
  have h := (dbCreate_retry_attempts_and_error "mysql" [] "testapp" (fun _ => "")
    (fun _ => .alreadyExists) (fun i => "s" ++ toString i) ⟨"", none⟩ "mysql"
    rfl (by decide) rfl).1 (fun i _ => rfl)
  refine ⟨rfl, rfl, h.1, ?_⟩
  rw [h.2.1]
  decide

/-- C10 (counterexample): after exhausting its retries the provisioner
does NOT leave the last generated suffix in the Run Context — the
final collision's `ctx.SetDbSuffix("")` clears it.  Here the suffix
generated on the last (5th) attempt is `"s4"`, yet the final context
suffix is `""`. -/
theorem dbCreate_exhaustion_suffix_counterexample :
    (Db.Run "mysql" [] "app" (fun _ => "") (fun _ => .alreadyExists)
        (fun i => "s" ++ toString i) true ⟨"", none⟩).err
      = some "failed to create database after 5 attempts: database app_s4 already exists" ∧
    (Db.Run "mysql" [] "app" (fun _ => "") (fun _ => .alreadyExists)
        (fun i => "s" ++ toString i) true ⟨"", none⟩).state.dbSuffix = "" ∧
    (Db.Run "mysql" [] "app" (fun _ => "") (fun _ => .alreadyExists)
        (fun i => "s" ++ toString i) true ⟨"", none⟩).state.dbSuffix ≠ "s4" := by
  decide

/-- C10 (amended): when `db.create` exhausts its creation retries and
returns the hard error, the Run Context's `DbSuffix` is left cleared
(empty) — the `SetDbSuffix("")` performed on the last colliding attempt
is not undone — and nothing is persisted: the whole state is exactly
the initial one.  The shared suffix slot therefore holds no value at
all (rather than the last generated suffix, which corresponds to no
created database). -/
theorem dbCreate_exhaustion_clears_suffix
    (dbType : String) (args : List String) (siteName : String) (env : String → String)
    (client : Nat → Db.CreateResult) (supply : Nat → String) (st : Db.DbRunState)
    (engine : String)
    (heng : Db.detectEngine dbType env = .ok engine) (hsql : engine ≠ "sqlite")
    (h0 : st.dbSuffix = "")
    (hcl : ∀ i, i < 5 → client i = .alreadyExists) :
    (Db.Run dbType args siteName env client supply true st).state = st ∧
    (Db.Run dbType args siteName env client supply true st).state.dbSuffix = "" ∧
    (Db.Run dbType args siteName env client supply true st).err.isSome = true := by
  rw [Db.Run_server dbType args siteName env client supply true st engine heng hsql]
  unfold Db.createWithRetry
  simp only [Bool.not_true, Bool.false_eq_true, if_false]
  obtain ⟨_, h2, h3⟩ := Db.retryLoop_all_exists client supply
    (Db.getPrefixOrSiteName args siteName env) Db.maxDbCreateRetries 0 st "" h0
    (by decide) (fun i hi => by simpa using hcl i hi)
  exact ⟨h3, by rw [h3, h0], by simp [h2]⟩

/-- Witness for the amended C10. -/
theorem dbCreate_exhaustion_clears_suffix_witness :
    Db.detectEngine "mysql" (fun _ => "") = .ok "mysql" ∧
    (⟨"", none⟩ : Db.DbRunState).dbSuffix = "" ∧
    ((Db.Run "mysql" [] "app2" (fun _ => "") (fun _ => .alreadyExists)
        (fun i => "t" ++ toString i) true ⟨"", none⟩).state = ⟨"", none⟩ ∧
     (Db.Run "mysql" [] "app2" (fun _ => "") (fun _ => .alreadyExists)
        (fun i => "t" ++ toString i) true ⟨"", none⟩).state.dbSuffix = "" ∧
     (Db.Run "mysql" [] "app2" (fun _ => "") (fun _ => .alreadyExists)
        (fun i => "t" ++ toString i) true ⟨"", none⟩).err.isSome = true) :=
  ⟨rfl, rfl,
   dbCreate_exhaustion_clears_suffix "mysql" [] "app2" (fun _ => "")
     (fun _ => .alreadyExists) (fun i => "t" ++ toString i) ⟨"", none⟩ "mysql"
     rfl (by decide) rfl (fun i _ => rfl)⟩

namespace Words

theorem mk_append_underscore (xs : List Char) (s : String) :
    String.mk (xs ++ '_' :: s.data) = String.mk xs ++ "_" ++ s := by
  show String.mk (xs ++ '_' :: s.data) = String.mk ((xs ++ ['_']) ++ s.data)
  simp

/-- Every generated database name is some prefix followed by
`"_" ++ suffix`. -/
theorem generateDatabaseName_suffix_form (pfx s : String) :
    ∃ q, GenerateDatabaseName pfx 0 s = q ++ "_" ++ s := by
  obtain ⟨k, hk, _⟩ := gdnData_shape (SanitizeSiteName pfx).data
    (if (0 : Nat) = 0 then 63 else 0) s.data
  refine ⟨String.mk ((SanitizeSiteName pfx).data.take k), ?_⟩
  unfold GenerateDatabaseName
  rw [hk]
  exact mk_append_underscore _ _

end Words

namespace Db

theorem createWithRetry_reuse (client : Nat → CreateResult) (supply : Nat → String)
    (siteName : String) (st : DbRunState) (s : String)
    (hs : st.dbSuffix = s) (hne : s ≠ "") (hok : client 0 = .ok) :
    createWithRetry client supply true siteName st
      = { state := { st with persisted := some s },
          calls := [Words.SanitizeSiteName siteName ++ "_" ++ s], err := none } := by
  unfold createWithRetry
  simp [maxDbCreateRetries, retryLoop, hs, hne, hok, persistDbSuffix]

theorem createWithRetry_generate_ok (client : Nat → CreateResult) (supply : Nat → String)
    (siteName : String) (st : DbRunState)
    (h0 : st.dbSuffix = "") (hok : client 0 = .ok) :
    createWithRetry client supply true siteName st
      = { state := persistDbSuffix { st with dbSuffix := supply 0 },
          calls := [Words.GenerateDatabaseName siteName 0 (supply 0)], err := none } := by
  unfold createWithRetry
  simp [maxDbCreateRetries, retryLoop, h0, hok]

/-- Modelled from the spec: N `db.create`-style steps run in sequence in
one scaffold run (spec §4.5 step 5 and §8), each resolving its own
naming prefix, every creation succeeding, all sharing the Run Context
state: returns the final state and the concatenated list of created
database names. -/
def createMany (supply : Nat → String) : List String → DbRunState → DbRunState × List String
  | [], st => (st, [])
  | p :: ps, st =>
    let out := createWithRetry (fun _ => .ok) supply true p st
    let rest := createMany supply ps out.state
    (rest.1, out.calls ++ rest.2)

theorem createMany_reuse (supply : Nat → String) (ps : List String) :
    ∀ (st : DbRunState) (s : String), st.dbSuffix = s → s ≠ "" → st.persisted = some s →
    (createMany supply ps st).1.dbSuffix = s ∧
    (createMany supply ps st).1.persisted = some s ∧
    ∀ n ∈ (createMany supply ps st).2, ∃ q, n = q ++ "_" ++ s := by
  induction ps with
  | nil =>
    intro st s hs hne hp
    simp only [createMany]
    exact ⟨hs, hp, by simp⟩
  | cons p ps ih =>
    intro st s hs hne hp
    have hout := createWithRetry_reuse (fun _ => .ok) supply p st s hs hne rfl
    obtain ⟨ih1, ih2, ih3⟩ := ih { st with persisted := some s } s hs hne rfl
    simp only [createMany, hout]
    refine ⟨ih1, ih2, ?_⟩
    intro n hn
    rcases List.mem_append.mp hn with hn | hn
    · simp only [List.mem_singleton] at hn
      exact ⟨Words.SanitizeSiteName p, hn⟩
    · exact ih3 n hn

end Db

/-- C2: a `db.create` run whose Run Context already holds a non-empty
`DbSuffix` reuses it verbatim: the database it creates is named
`prefix + "_" + suffix` (with `prefix` the resolved, sanitized naming
prefix), the context's suffix is unchanged after the run, and the
persisted worktree record's suffix equals that shared value;
consequently N `db.create` steps in one run starting with no suffix
all use the one suffix generated by the first step, every created
database name ends in `"_" + suffix`, and the persisted record equals
that shared suffix. -/
theorem dbCreate_suffix_reuse_and_sharing :
    (∀ (dbType : String) (args : List String) (siteName : String) (env : String → String)
       (client : Nat → Db.CreateResult) (supply : Nat → String) (st : Db.DbRunState)
       (engine s : String),
      Db.detectEngine dbType env = .ok engine → engine ≠ "sqlite" →
      st.dbSuffix = s → s ≠ "" → client 0 = .ok →
      (Db.Run dbType args siteName env client supply true st).calls
          = [Words.SanitizeSiteName (Db.getPrefixOrSiteName args siteName env) ++ "_" ++ s] ∧
      (Db.Run dbType args siteName env client supply true st).state.dbSuffix = s ∧
      (Db.Run dbType args siteName env client supply true st).state.persisted = some s ∧
      (Db.Run dbType args siteName env client supply true st).err = none) ∧
    (∀ (supply : Nat → String) (prefixes : List String) (st : Db.DbRunState),
      st.dbSuffix = "" → supply 0 ≠ "" → prefixes ≠ [] →
      (Db.createMany supply prefixes st).1.dbSuffix = supply 0 ∧
      (Db.createMany supply prefixes st).1.persisted = some (supply 0) ∧
      ∀ n ∈ (Db.createMany supply prefixes st).2, ∃ q, n = q ++ "_" ++ supply 0) := by
  constructor
  · intro dbType args siteName env client supply st engine s heng hsql hs hne hok
    rw [Db.Run_server dbType args siteName env client supply true st engine heng hsql]
    rw [Db.createWithRetry_reuse client supply _ st s hs hne hok]
    exact ⟨rfl, hs, rfl, rfl⟩
  · intro supply prefixes st h0 hsup hpre
    match prefixes, hpre with
    | p :: ps, _ =>
      have hout := Db.createWithRetry_generate_ok (fun _ => .ok) supply p st h0 rfl
      have hper : Db.persistDbSuffix { st with dbSuffix := supply 0 }
          = { st with dbSuffix := supply 0, persisted := some (supply 0) } := by
        unfold Db.persistDbSuffix
        simp [hsup]
      obtain ⟨ih1, ih2, ih3⟩ := Db.createMany_reuse supply ps
        { st with dbSuffix := supply 0, persisted := some (supply 0) } (supply 0)
        rfl hsup rfl
      simp only [Db.createMany, hout, hper]
      refine ⟨ih1, ih2, ?_⟩
      intro n hn
      rcases List.mem_append.mp hn with hn | hn
      · simp only [List.mem_singleton] at hn
        obtain ⟨q, hq⟩ := Words.generateDatabaseName_suffix_form p (supply 0)
        exact ⟨q, hn ▸ hq⟩
      · exact ih3 n hn

/-- Witness for C2: part one reuses `"shared_suffix"` on a mysql
engine; part two runs two `db.create` steps (`app`, `quotes`) from an
empty context. -/
theorem dbCreate_suffix_reuse_and_sharing_witness :
    (Db.detectEngine "mysql" (fun _ => "") = .ok "mysql" ∧
     (⟨"shared_suffix", none⟩ : Db.DbRunState).dbSuffix = "shared_suffix" ∧
     (Db.Run "mysql" [] "testapp" (fun _ => "") (fun _ => .ok)
        (fun i => "s" ++ toString i) true ⟨"shared_suffix", none⟩).calls
       = [Words.SanitizeSiteName (Db.getPrefixOrSiteName [] "testapp" (fun _ => ""))
            ++ "_" ++ "shared_suffix"] ∧
     (Db.Run "mysql" [] "testapp" (fun _ => "") (fun _ => .ok)
        (fun i => "s" ++ toString i) true ⟨"shared_suffix", none⟩).state.persisted
       = some "shared_suffix") ∧
    ((Db.createMany (fun i => "s" ++ toString i) ["app", "quotes"] ⟨"", none⟩).1.dbSuffix
        = "s0" ∧
     (Db.createMany (fun i => "s" ++ toString i) ["app", "quotes"] ⟨"", none⟩).1.persisted
        = some "s0" ∧
     ∀ n ∈ (Db.createMany (fun i => "s" ++ toString i) ["app", "quotes"] ⟨"", none⟩).2,
       ∃ q, n = q ++ "_" ++ "s0") := by
  have hA := dbCreate_suffix_reuse_and_sharing.1 "mysql" [] "testapp" (fun _ => "")
    (fun _ => .ok) (fun i => "s" ++ toString i) ⟨"shared_suffix", none⟩ "mysql"
    "shared_suffix" rfl (by decide) rfl (by decide) rfl
  have hB := dbCreate_suffix_reuse_and_sharing.2 (fun i => "s" ++ toString i)
    ["app", "quotes"] ⟨"", none⟩ rfl (by decide) (by decide)
  exact ⟨⟨rfl, rfl, hA.1, hA.2.2.1⟩, hB⟩

/-- C8: a `db.create` run whose engine cannot be resolved (no usable
explicit type and no usable `DB_CONNECTION`), and a run against a
server engine whose connection ping fails, both return nil (soft-skip)
with no creation call and the Run Context state — in particular
`DbSuffix` — completely untouched. -/
theorem dbCreate_soft_skip
    (dbType : String) (args : List String) (siteName : String) (env : String → String)
    (client : Nat → Db.CreateResult) (supply : Nat → String) (st : Db.DbRunState) :
    ((∃ e, Db.detectEngine dbType env = .error e) →
      Db.Run dbType args siteName env client supply true st
        = { state := st, calls := [], err := none }) ∧
    (∀ engine, Db.detectEngine dbType env = .ok engine → engine ≠ "sqlite" →
      Db.Run dbType args siteName env client supply false st
        = { state := st, calls := [], err := none }) := by
  constructor
  · rintro ⟨e, he⟩
    unfold Db.Run
    rw [he]
  · intro engine heng hsql
    rw [Db.Run_server dbType args siteName env client supply false st engine heng hsql]
    unfold Db.createWithRetry
    simp

/-- Witness for C8: an empty `.env` (engine unresolvable), and a mysql
engine with a failing ping. -/
theorem dbCreate_soft_skip_witness :
    (∃ e, Db.detectEngine "" (fun _ => "") = .error e) ∧
    (Db.detectEngine "mysql" (fun _ => "") = .ok "mysql") ∧
    (Db.Run "" [] "testapp" (fun _ => "") (fun _ => .ok) (fun _ => "x") true ⟨"", none⟩
        = { state := ⟨"", none⟩, calls := [], err := none }) ∧
    (Db.Run "mysql" [] "testapp" (fun _ => "") (fun _ => .ok) (fun _ => "x") false ⟨"", none⟩
        = { state := ⟨"", none⟩, calls := [], err := none }) :=
  ⟨⟨"database type not specified and DB_CONNECTION not found in .env", rfl⟩, rfl,
   (dbCreate_soft_skip "" [] "testapp" (fun _ => "") (fun _ => .ok) (fun _ => "x")
       ⟨"", none⟩).1
     ⟨"database type not specified and DB_CONNECTION not found in .env", rfl⟩,
   (dbCreate_soft_skip "mysql" [] "testapp" (fun _ => "") (fun _ => .ok) (fun _ => "x")
       ⟨"", none⟩).2 "mysql" rfl (by decide)⟩

end Arbor
